import Mathlib

/-!
Shallow embedding of the gg-svg SVG backend (backend.go) and proofs about it.

Conventions of the embedding:
* Go `float64` coordinates and color channels are modelled as `ℚ`; every
  concrete value evaluated in this development is exactly representable, and
  the formatting model `fmtG` agrees with Go's `%g` on the integral values
  the theorems evaluate.
* Go strings are Lean `String`s; `strings.Builder` accumulation is string
  concatenation in emission order.
* The `recording`/`gg` collaborator types (Matrix, Brush, Path elements,
  Stroke) are modelled as plain structures/inductives carrying exactly the
  fields the backend reads.
-/

namespace GGSvg

/-- Decimal digit emission for a natural number, fuel-recursive so that the
kernel can evaluate it.  Mirrors the digit loop of Go's `strconv.Itoa`
(via `fmt.Sprintf` with decimal verbs): most significant digit first. -/
def natToDecAux : ℕ → ℕ → List Char
  | _, 0 => []
  | 0, _ + 1 => []
  | fuel + 1, n + 1 =>
    natToDecAux fuel ((n + 1) / 10) ++ [Nat.digitChar ((n + 1) % 10)]

/-- Character list of the decimal representation of a natural number. -/
def natToDecData (n : ℕ) : List Char :=
  if n = 0 then ['0'] else natToDecAux n n

/-- Decimal string of a natural number. -/
def natToDec (n : ℕ) : String := ⟨natToDecData n⟩

/-- Decimal string of an integer, as Go's `%d` prints it. -/
def intToDec (i : ℤ) : String :=
  if i < 0 then "-" ++ natToDec i.natAbs else natToDec i.natAbs

/-- Reads a decimal digit string back to a natural number; left inverse of
`natToDecData`, used to prove injectivity of the ID formatter. -/
def readNat (l : List Char) : ℕ :=
  l.foldl (fun a c => 10 * a + (c.toNat - 48)) 0

/-- Go `int(x)` conversion of a float: truncation toward zero.  Uses the
executable `Rat.floor`/`Rat.ceil`; the theorems below identify them with
`⌊q⌋` and `⌈q⌉`. -/
def truncInt (q : ℚ) : ℤ := if 0 ≤ q then q.floor else q.ceil

/-- Fractional-part digits used by the non-integral branch of `fmtG`:
digits only, enough places to identify the values used in this codebase. -/
def fracDigits (q : ℚ) : List Char :=
  natToDecData ((q - (q.floor : ℚ)) * 10 ^ 17).floor.toNat

/-- Model of Go's `%g` formatting of a `float64`, on the rational model of
the coordinate space.  On integral values it prints the plain decimal
integer, exactly as `%g` does for the magnitudes this backend emits; on
non-integral values it prints sign, integer part, a dot and fraction
digits (characters drawn from digits, `-` and `.` only, which is all any
theorem below needs of that branch). -/
def fmtG (q : ℚ) : String :=
  if q.den = 1 then intToDec q.num
  else if q < 0 then
    "-" ++ natToDec (-q).floor.toNat ++ "." ++ ⟨fracDigits (-q)⟩
  else
    natToDec q.floor.toNat ++ "." ++ ⟨fracDigits q⟩

/-- RGBA color with float64 channels in gg, channels modelled as `ℚ`. -/
structure RGBA where
  r : ℚ
  g : ℚ
  b : ℚ
  a : ℚ
deriving DecidableEq

/-- Model of `colorToCSS` (backend.go:553): each channel is multiplied by
255 and converted with Go's `int(...)` (truncation toward zero), with no
clamping; alpha is not consulted. -/
def colorToCSS (c : RGBA) : String :=
  "rgb(" ++ intToDec (truncInt (c.r * 255)) ++ "," ++
    intToDec (truncInt (c.g * 255)) ++ "," ++
    intToDec (truncInt (c.b * 255)) ++ ")"

/-! XML escaping (`escapeXML`, backend.go:561). -/

/-- Prefix test on character lists (the matching step of `strings.ReplaceAll`). -/
def startsWith : List Char → List Char → Bool
  | [], _ => true
  | _ :: _, [] => false
  | a :: p, b :: s => a == b && startsWith p s

/-- Model of Go's `strings.ReplaceAll`: replaces non-overlapping instances
of `old` left to right.  Fuel-recursive (fuel bounds the input length) so
the kernel can evaluate it; the empty-pattern case, which Go treats
specially and this codebase never uses, returns the input unchanged. -/
def replaceAllAux (old new : List Char) : ℕ → List Char → List Char
  | _, [] => []
  | 0, s => s
  | fuel + 1, a :: s =>
    if startsWith old (a :: s) && !old.isEmpty then
      new ++ replaceAllAux old new fuel (List.drop (old.length - 1) s)
    else
      a :: replaceAllAux old new fuel s

def replaceAll (old new s : List Char) : List Char :=
  replaceAllAux old new s.length s

/-- The apostrophe character, kept out of literals. -/
def aposChar : Char := Char.ofNat 39

/-- One-character string holding the apostrophe. -/
def aposStr : String := ⟨[aposChar]⟩

/-- Model of `escapeXML` (backend.go:561): five sequential `ReplaceAll`
passes, ampersand first so later entities are not re-escaped. -/
def escData (s : List Char) : List Char :=
  replaceAll [aposChar] "&apos;".data <|
    replaceAll ['"'] "&quot;".data <|
      replaceAll ['>'] "&gt;".data <|
        replaceAll ['<'] "&lt;".data <|
          replaceAll ['&'] "&amp;".data s

def escapeXML (s : String) : String := ⟨escData s.data⟩

/-- Per-character view of the combined effect of the five passes. -/
def escChar (a : Char) : List Char :=
  if a = '&' then "&amp;".data
  else if a = '<' then "&lt;".data
  else if a = '>' then "&gt;".data
  else if a = '"' then "&quot;".data
  else if a = aposChar then "&apos;".data
  else [a]

/-- Substring occurrence as a Boolean check, evaluable by the kernel. -/
def occursIn (p : List Char) : List Char → Bool
  | [] => startsWith p []
  | a :: s => startsWith p (a :: s) || occursIn p s

/-- Substring occurrence as a proposition. -/
def SubstrP (p s : List Char) : Prop := ∃ l r, s = l ++ p ++ r

/-! The drawing-state data model (backend.go:51-79), with the collaborator
types of the `recording`/`gg` packages that the backend reads. -/

/-- 2D affine matrix of the recording package; the backend only reads its
six entries and compares against the identity. -/
structure Matrix where
  a : ℚ
  b : ℚ
  c : ℚ
  d : ℚ
  e : ℚ
  f : ℚ
deriving DecidableEq

/-- Identity matrix returned by `recording.Identity()`. -/
def identityMatrix : Matrix := ⟨1, 0, 0, 0, 1, 0⟩

/-- Model of `Matrix.IsIdentity` of the recording package. -/
def Matrix.isIdentity (m : Matrix) : Bool := m = identityMatrix

/-- A 2D point with float64 coordinates. -/
structure Point where
  x : ℚ
  y : ℚ
deriving DecidableEq

/-- Path elements of `gg.Path.Elements()`.  The `other` constructor stands
for any element that is none of the five kinds the encoder's type switch
recognizes (the switch in `pathToD` has no default case). -/
inductive PathElem where
  | moveTo (p : Point)
  | lineTo (p : Point)
  | quadTo (control p : Point)
  | cubicTo (control1 control2 p : Point)
  | close
  | other
deriving DecidableEq

/-- The path-data text for one element: the body of the type switch in
`pathToD` (backend.go:352-369); an unrecognized element contributes
nothing. -/
def elemD : PathElem → String
  | .moveTo p => "M" ++ fmtG p.x ++ " " ++ fmtG p.y
  | .lineTo p => "L" ++ fmtG p.x ++ " " ++ fmtG p.y
  | .quadTo c p =>
    "Q" ++ fmtG c.x ++ " " ++ fmtG c.y ++ " " ++ fmtG p.x ++ " " ++ fmtG p.y
  | .cubicTo c1 c2 p =>
    "C" ++ fmtG c1.x ++ " " ++ fmtG c1.y ++ " " ++ fmtG c2.x ++ " " ++
      fmtG c2.y ++ " " ++ fmtG p.x ++ " " ++ fmtG p.y
  | .close => "Z"
  | .other => ""

/-- Model of `pathToD` (backend.go:349): a builder loop over the element
sequence. -/
def pathToD (elems : List PathElem) : String :=
  elems.foldl (fun d e => d ++ elemD e) ""

/-- Gradient stop `(offset, color)`. -/
structure GradStop where
  offset : ℚ
  color : RGBA
deriving DecidableEq

/-- Spread mode (`recording.Extend*`): the backend's switches only
distinguish repeat and reflect; everything else is the default clamp. -/
inductive Extend where
  | pad
  | repeatMode
  | reflect
deriving DecidableEq

/-- `recording.LinearGradientBrush` fields read by the backend. -/
structure LinearGradientBrush where
  start : Point
  stop : Point
  stops : List GradStop
  extend : Extend
deriving DecidableEq

/-- `recording.RadialGradientBrush` fields read by the backend. -/
structure RadialGradientBrush where
  center : Point
  focus : Point
  endRadius : ℚ
  stops : List GradStop
  extend : Extend
deriving DecidableEq

/-- The brush variants of the `recording.Brush` interface as the backend's
type switches see them; `other` is any implementation hitting the default
case. -/
inductive Brush where
  | solid (c : RGBA)
  | linear (br : LinearGradientBrush)
  | radial (br : RadialGradientBrush)
  | sweep (stops : List GradStop)
  | other
deriving DecidableEq

/-- Line cap styles of `recording.LineCap*`. -/
inductive LineCap where
  | butt
  | round
  | square
deriving DecidableEq

/-- Line join styles of `recording.LineJoin*`. -/
inductive LineJoin where
  | miter
  | round
  | bevel
deriving DecidableEq

/-- `recording.Stroke` fields read by `writeStroke`. -/
structure Stroke where
  width : ℚ
  cap : LineCap
  join : LineJoin
  miterLimit : ℚ
  dashPattern : List ℚ
  dashOffset : ℚ
deriving DecidableEq

/-- Fill rules. -/
inductive FillRule where
  | nonZero
  | evenOdd
deriving DecidableEq

/-- Axis-aligned rectangle; the backend reads origin and extent. -/
structure Rect where
  minX : ℚ
  minY : ℚ
  width : ℚ
  height : ℚ
deriving DecidableEq

/-- Font-face handle of the text package: the backend reads `Size()` and,
as a fallback, `Metrics().LineHeight()`. -/
structure Face where
  size : ℚ
  lineHeight : ℚ
deriving DecidableEq

/-- `backendState` (backend.go:76): the graphics state pushed by Save. -/
structure BackendState where
  transform : Matrix
  clipID : String
deriving DecidableEq

/-- The `Backend` struct (backend.go:51).  The state stack is kept with
its most recently pushed entry at the head (the Go slice appends at the
end and pops from the end). -/
structure Backend where
  width : ℤ
  height : ℤ
  builder : String
  defs : String
  groupDepth : ℕ
  idCounter : ℕ
  stateStack : List BackendState
  currentTransform : Matrix
  currentClipID : String
deriving DecidableEq

/-- `NewBackend` (backend.go:84): the zero value with an empty stack. -/
def newBackend : Backend :=
  { width := 0, height := 0, builder := "", defs := "", groupDepth := 0,
    idCounter := 0, stateStack := [], currentTransform := identityMatrix,
    currentClipID := "" }

/-- `Begin` (backend.go:91): full reset at the given dimensions. -/
def beginDoc (w h : ℤ) (b : Backend) : Backend :=
  { b with
    width := w, height := h, builder := "", defs := "",
    groupDepth := 0, idCounter := 0, stateStack := [],
    currentTransform := identityMatrix, currentClipID := "" }

/-- `Save` (backend.go:111): push a state copy, open a group, bump the
depth. -/
def save (b : Backend) : Backend :=
  { b with
    stateStack := ⟨b.currentTransform, b.currentClipID⟩ :: b.stateStack,
    builder := b.builder ++ "<g>",
    groupDepth := b.groupDepth + 1 }

/-- `Restore` (backend.go:121): no-op on an empty stack; otherwise pop,
restore transform/clip, and close a group if any is open. -/
def restore (b : Backend) : Backend :=
  match b.stateStack with
  | [] => b
  | st :: rest =>
    let b1 := { b with
                stateStack := rest,
                currentTransform := st.transform,
                currentClipID := st.clipID }
    if 0 < b1.groupDepth then
      { b1 with
        builder := b1.builder ++ "</g>",
        groupDepth := b1.groupDepth - 1 }
    else b1

/-- `SetTransform` (backend.go:139): replaces, does not compose. -/
def setTransform (m : Matrix) (b : Backend) : Backend :=
  { b with currentTransform := m }

/-- `ClearClip` (backend.go:162). -/
def clearClip (b : Backend) : Backend :=
  { b with currentClipID := "" }

/-- `nextID` (backend.go:343): pre-increment then format. -/
def nextID (pfx : String) (b : Backend) : Backend × String :=
  ({ b with idCounter := b.idCounter + 1 },
    pfx ++ natToDec (b.idCounter + 1))

/-- `SetClip` (backend.go:144): nil path is a no-op; otherwise allocate a
clip id, make it current and register the definition. -/
def setClip (path : Option (List PathElem)) (rule : FillRule)
    (b : Backend) : Backend :=
  match path with
  | none => b
  | some p =>
    let pr := nextID "clip" b
    let b2 := { pr.1 with currentClipID := pr.2 }
    { b2 with
      defs := b2.defs ++
        "<clipPath id=\"" ++ pr.2 ++ "\">" ++
        "<path d=\"" ++ pathToD p ++ "\"" ++
        (if rule = .evenOdd then " clip-rule=\"evenodd\"" else "") ++
        "/></clipPath>" }

/-- `writeTransform` (backend.go:375) as the attribute text it appends:
nothing for the identity, else a matrix attribute in the source's
argument order (A, B, D, E, C, F). -/
def transformAttr (m : Matrix) : String :=
  if m.isIdentity then ""
  else
    " transform=\"matrix(" ++ fmtG m.a ++ "," ++ fmtG m.b ++ "," ++
      fmtG m.d ++ "," ++ fmtG m.e ++ "," ++ fmtG m.c ++ "," ++
      fmtG m.f ++ ")\""

/-- `writeClip` (backend.go:385) as the attribute text it appends. -/
def clipAttr (clipID : String) : String :=
  if clipID = "" then ""
  else " clip-path=\"url(#" ++ clipID ++ ")\""

/-- One stop entry of a gradient definition (the stop loops of
backend.go:507-515 and 537-545). -/
def stopStr (st : GradStop) : String :=
  "<stop offset=\"" ++ fmtG st.offset ++ "\" stop-color=\"" ++
    colorToCSS st.color ++ "\"" ++
    (if st.color.a < 1 then
      " stop-opacity=\"" ++ fmtG st.color.a ++ "\""
    else "") ++ "/>"

/-- The squared length of the gradient vector.  The source compares
`math.Sqrt(dx*dx+dy*dy) > 0`; over the exact rationals this holds exactly
when the squared length is positive. -/
def lengthSq (br : LinearGradientBrush) : ℚ :=
  (br.stop.x - br.start.x) * (br.stop.x - br.start.x) +
    (br.stop.y - br.start.y) * (br.stop.y - br.start.y)

/-- The spread-mode text of `addLinearGradient` (backend.go:498-505):
written only for a positive-length vector, mapping repeat and reflect and
emitting nothing otherwise.  (The source appends this after the `>` that
already closed the opening tag.) -/
def linGradSpread (br : LinearGradientBrush) : String :=
  if 0 < lengthSq br then
    match br.extend with
    | .repeatMode => " spreadMethod=\"repeat\""
    | .reflect => " spreadMethod=\"reflect\""
    | .pad => ""
  else ""

/-- The full definitions-buffer fragment written by `addLinearGradient`
(backend.go:484-519) for a gradient that received the id `gradID`. -/
def linGradFragment (gradID : String) (br : LinearGradientBrush) : String :=
  "<linearGradient id=\"" ++ gradID ++
    "\" gradientUnits=\"userSpaceOnUse\" x1=\"" ++ fmtG br.start.x ++
    "\" y1=\"" ++ fmtG br.start.y ++ "\" x2=\"" ++ fmtG br.stop.x ++
    "\" y2=\"" ++ fmtG br.stop.y ++ "\">" ++
    linGradSpread br ++
    (br.stops.foldl (fun acc st => acc ++ stopStr st) "") ++
    "</linearGradient>"

/-- `addLinearGradient` (backend.go:484): allocate an id, append the
definition fragment, return the id. -/
def addLinearGradient (b : Backend) (br : LinearGradientBrush) :
    Backend × String :=
  let pr := nextID "lg" b
  ({ pr.1 with defs := pr.1.defs ++ linGradFragment pr.2 br }, pr.2)

/-- The spread-mode text of `addRadialGradient` (backend.go:530-535):
unconditional, unlike the linear case. -/
def radGradSpread (ext : Extend) : String :=
  match ext with
  | .repeatMode => " spreadMethod=\"repeat\""
  | .reflect => " spreadMethod=\"reflect\""
  | .pad => ""

/-- The definitions-buffer fragment of `addRadialGradient`
(backend.go:522-549). -/
def radGradFragment (gradID : String) (br : RadialGradientBrush) : String :=
  "<radialGradient id=\"" ++ gradID ++
    "\" gradientUnits=\"userSpaceOnUse\" cx=\"" ++ fmtG br.center.x ++
    "\" cy=\"" ++ fmtG br.center.y ++ "\" r=\"" ++ fmtG br.endRadius ++
    "\" fx=\"" ++ fmtG br.focus.x ++ "\" fy=\"" ++ fmtG br.focus.y ++
    "\">" ++
    radGradSpread br.extend ++
    (br.stops.foldl (fun acc st => acc ++ stopStr st) "") ++
    "</radialGradient>"

/-- `addRadialGradient` (backend.go:522). -/
def addRadialGradient (b : Backend) (br : RadialGradientBrush) :
    Backend × String :=
  let pr := nextID "rg" b
  ({ pr.1 with defs := pr.1.defs ++ radGradFragment pr.2 br }, pr.2)

/-- `writeFill` (backend.go:392): the type switch over the brush. -/
def writeFill (b : Backend) (brush : Brush) : Backend :=
  match brush with
  | .solid c =>
    { b with
      builder := b.builder ++ " fill=\"" ++ colorToCSS c ++ "\"" ++
        (if c.a < 1 then " fill-opacity=\"" ++ fmtG c.a ++ "\"" else "") }
  | .linear br =>
    let pr := addLinearGradient b br
    { pr.1 with builder := pr.1.builder ++ " fill=\"url(#" ++ pr.2 ++ ")\"" }
  | .radial br =>
    let pr := addRadialGradient b br
    { pr.1 with builder := pr.1.builder ++ " fill=\"url(#" ++ pr.2 ++ ")\"" }
  | .sweep stops =>
    match stops with
    | st :: _ =>
      { b with
        builder := b.builder ++ " fill=\"" ++ colorToCSS st.color ++ "\"" }
    | [] => { b with builder := b.builder ++ " fill=\"black\"" }
  | .other => { b with builder := b.builder ++ " fill=\"black\"" }

/-- The cap/join/dash attribute tail of `writeStroke`
(backend.go:444-480). -/
def strokeStyleAttrs (stroke : Stroke) : String :=
  " stroke-width=\"" ++ fmtG stroke.width ++ "\"" ++
    (match stroke.cap with
     | .round => " stroke-linecap=\"round\""
     | .square => " stroke-linecap=\"square\""
     | .butt => " stroke-linecap=\"butt\"") ++
    (match stroke.join with
     | .round => " stroke-linejoin=\"round\""
     | .bevel => " stroke-linejoin=\"bevel\""
     | .miter =>
       " stroke-linejoin=\"miter\"" ++
         (if 0 < stroke.miterLimit then
           " stroke-miterlimit=\"" ++ fmtG stroke.miterLimit ++ "\""
         else "")) ++
    (if stroke.dashPattern = [] then ""
     else
       " stroke-dasharray=\"" ++
         String.intercalate " " (stroke.dashPattern.map fmtG) ++ "\"" ++
         (if stroke.dashOffset = 0 then ""
          else " stroke-dashoffset=\"" ++ fmtG stroke.dashOffset ++ "\""))

/-- `writeStroke` (backend.go:423): stroke paint switch (note the default
black for sweep and unknown brushes), then width/cap/join/dash. -/
def writeStroke (b : Backend) (brush : Brush) (stroke : Stroke) : Backend :=
  let b1 :=
    match brush with
    | .solid c =>
      { b with
        builder := b.builder ++ " stroke=\"" ++ colorToCSS c ++ "\"" ++
          (if c.a < 1 then
            " stroke-opacity=\"" ++ fmtG c.a ++ "\""
          else "") }
    | .linear br =>
      let pr := addLinearGradient b br
      { pr.1 with builder := pr.1.builder ++ " stroke=\"url(#" ++ pr.2 ++ ")\"" }
    | .radial br =>
      let pr := addRadialGradient b br
      { pr.1 with builder := pr.1.builder ++ " stroke=\"url(#" ++ pr.2 ++ ")\"" }
    | .sweep _ => { b with builder := b.builder ++ " stroke=\"black\"" }
    | .other => { b with builder := b.builder ++ " stroke=\"black\"" }
  { b1 with builder := b1.builder ++ strokeStyleAttrs stroke }

/-- `FillPath` (backend.go:167). -/
def fillPath (path : Option (List PathElem)) (brush : Brush)
    (rule : FillRule) (b : Backend) : Backend :=
  match path with
  | none => b
  | some p =>
    let b1 := { b with
      builder := b.builder ++ "<path" ++
        transformAttr b.currentTransform ++ clipAttr b.currentClipID ++
        " d=\"" ++ pathToD p ++ "\"" }
    let b2 := writeFill b1 brush
    { b2 with
      builder := b2.builder ++
        (if rule = .evenOdd then " fill-rule=\"evenodd\"" else "") ++
        " stroke=\"none\"" ++ "/>" }

/-- `StrokePath` (backend.go:185). -/
def strokePath (path : Option (List PathElem)) (brush : Brush)
    (stroke : Stroke) (b : Backend) : Backend :=
  match path with
  | none => b
  | some p =>
    let b1 := { b with
      builder := b.builder ++ "<path" ++
        transformAttr b.currentTransform ++ clipAttr b.currentClipID ++
        " d=\"" ++ pathToD p ++ "\"" ++ " fill=\"none\"" }
    let b2 := writeStroke b1 brush stroke
    { b2 with builder := b2.builder ++ "/>" }

/-- `FillRect` (backend.go:200). -/
def fillRect (rect : Rect) (brush : Brush) (b : Backend) : Backend :=
  let b1 := { b with
    builder := b.builder ++ "<rect" ++
      transformAttr b.currentTransform ++ clipAttr b.currentClipID ++
      " x=\"" ++ fmtG rect.minX ++ "\" y=\"" ++ fmtG rect.minY ++
      "\" width=\"" ++ fmtG rect.width ++ "\" height=\"" ++
      fmtG rect.height ++ "\"" }
  let b2 := writeFill b1 brush
  { b2 with builder := b2.builder ++ " stroke=\"none\"" ++ "/>" }

/-- `DrawImage` (backend.go:212).  The PNG codec is an external
collaborator: `encoded = none` models a nil image or an encoding failure,
both of which make the call a no-op; `some payload` is the base64 text. -/
def drawImage (encoded : Option String) (dst : Rect) (alpha : ℚ)
    (b : Backend) : Backend :=
  match encoded with
  | none => b
  | some payload =>
    { b with
      builder := b.builder ++ "<image" ++
        transformAttr b.currentTransform ++ clipAttr b.currentClipID ++
        " x=\"" ++ fmtG dst.minX ++ "\" y=\"" ++ fmtG dst.minY ++
        "\" width=\"" ++ fmtG dst.width ++ "\" height=\"" ++
        fmtG dst.height ++ "\"" ++
        " href=\"data:image/png;base64," ++ payload ++ "\"" ++
        (if alpha < 1 then " opacity=\"" ++ fmtG alpha ++ "\"" else "") ++
        " preserveAspectRatio=\"none\"" ++ "/>" }

/-- The font size chosen by `DrawText` (backend.go:247-257): 12 for a nil
face; else the face size, falling back to the line height and finally to
12 when non-positive. -/
def fontSizeOf (face : Option Face) : ℚ :=
  match face with
  | none => 12
  | some f =>
    if f.size ≤ 0 then
      (if f.lineHeight ≤ 0 then 12 else f.lineHeight)
    else f.size

/-- `DrawText` (backend.go:240). -/
def drawText (s : String) (x y : ℚ) (face : Option Face) (brush : Brush)
    (b : Backend) : Backend :=
  let b1 := { b with
    builder := b.builder ++ "<text" ++
      transformAttr b.currentTransform ++ clipAttr b.currentClipID ++
      " x=\"" ++ fmtG x ++ "\" y=\"" ++ fmtG y ++ "\"" ++
      " font-size=\"" ++ fmtG (fontSizeOf face) ++ "\"" }
  let b2 := writeFill b1 brush
  { b2 with
    builder := b2.builder ++ ">" ++ escapeXML s ++ "</text>" }

/-- The closing group markers written by the auto-close loop of `WriteTo`
(backend.go:311-317). -/
def closeGroups : ℕ → String
  | 0 => ""
  | n + 1 => "</g>" ++ closeGroups n

/-- `WriteTo` (backend.go:270) with an infallible sink: header, optional
definitions block, content, auto-closed groups, footer, in source order. -/
def writeTo (b : Backend) : String :=
  ("<?xml version=\"1.0\" encoding=\"UTF-8\"?>\n<svg xmlns=\"http://www.w3.org/2000/svg\" xmlns:xlink=\"http://www.w3.org/1999/xlink\" width=\"" ++
      intToDec b.width ++ "\" height=\"" ++ intToDec b.height ++
      "\" viewBox=\"0 0 " ++ intToDec b.width ++ " " ++
      intToDec b.height ++ "\">\n") ++
    (if b.defs = "" then "" else "<defs>" ++ b.defs ++ "</defs>\n") ++
    b.builder ++
    closeGroups b.groupDepth ++
    "\n</svg>\n"

/-! A run of the command protocol: the operations a caller can issue
between `Begin` and serialization. -/

/-- One drawing command of the backend interface. -/
inductive Op where
  | save
  | restore
  | setTransform (m : Matrix)
  | setClip (path : Option (List PathElem)) (rule : FillRule)
  | clearClip
  | fillPath (path : Option (List PathElem)) (brush : Brush) (rule : FillRule)
  | strokePath (path : Option (List PathElem)) (brush : Brush) (stroke : Stroke)
  | fillRect (rect : Rect) (brush : Brush)
  | drawImage (encoded : Option String) (dst : Rect) (alpha : ℚ)
  | drawText (s : String) (x y : ℚ) (face : Option Face) (brush : Brush)

/-- Applies one command to the backend state. -/
def applyOp (b : Backend) : Op → Backend
  | .save => save b
  | .restore => restore b
  | .setTransform m => setTransform m b
  | .setClip p r => setClip p r b
  | .clearClip => clearClip b
  | .fillPath p br r => fillPath p br r b
  | .strokePath p br st => strokePath p br st b
  | .fillRect rect br => fillRect rect br b
  | .drawImage enc dst alpha => drawImage enc dst alpha b
  | .drawText s x y face br => drawText s x y face br b

/-- Applies a command sequence left to right. -/
def runOps (b : Backend) : List Op → Backend
  | [] => b
  | op :: ops => runOps (applyOp b op) ops

/-- Whether a path element is one of the five kinds the encoder's type
switch recognizes. -/
def isRecognized : PathElem → Bool
  | .other => false
  | _ => true

/-! Resource-id accounting for a run: the definition ids a command
allocates and the `url(#id)` references it emits, read off the same state
the faithful operations consume. -/

/-- The definition ids allocated by encoding a brush at the current
counter: one for each gradient definition written, none otherwise
(`writeFill`/`writeStroke` allocate via `nextID` exactly for the linear
and radial variants). -/
def brushAllocs (b : Backend) : Brush → List String
  | .linear _ => ["lg" ++ natToDec (b.idCounter + 1)]
  | .radial _ => ["rg" ++ natToDec (b.idCounter + 1)]
  | _ => []

/-- The definition ids an operation allocates. -/
def allocsOp (b : Backend) : Op → List String
  | .setClip none _ => []
  | .setClip (some _) _ => ["clip" ++ natToDec (b.idCounter + 1)]
  | .fillPath none _ _ => []
  | .fillPath (some _) br _ => brushAllocs b br
  | .strokePath none _ _ => []
  | .strokePath (some _) br _ => brushAllocs b br
  | .fillRect _ br => brushAllocs b br
  | .drawText _ _ _ _ br => brushAllocs b br
  | _ => []

/-- The clip reference a drawing element emits via `writeClip`. -/
def clipRefs (b : Backend) : List String :=
  if b.currentClipID = "" then [] else [b.currentClipID]

/-- The `url(#id)` references an operation emits into the content
buffer: the clip-path reference of each drawn element plus the gradient
paint references. -/
def refsOp (b : Backend) : Op → List String
  | .fillPath none _ _ => []
  | .fillPath (some _) br _ => clipRefs b ++ brushAllocs b br
  | .strokePath none _ _ => []
  | .strokePath (some _) br _ => clipRefs b ++ brushAllocs b br
  | .fillRect _ br => clipRefs b ++ brushAllocs b br
  | .drawImage none _ _ => []
  | .drawImage (some _) _ _ => clipRefs b
  | .drawText _ _ _ _ br => clipRefs b ++ brushAllocs b br
  | _ => []

/-- All definition ids allocated along a run, in order. -/
def runAllocs (b : Backend) : List Op → List String
  | [] => []
  | op :: ops => allocsOp b op ++ runAllocs (applyOp b op) ops

/-- All references emitted along a run, in order. -/
def runRefs (b : Backend) : List Op → List String
  | [] => []
  | op :: ops => refsOp b op ++ runRefs (applyOp b op) ops

/-- The three id prefixes the backend ever passes to `nextID`. -/
def idPrefixes : List String := ["clip", "lg", "rg"]

/-- Opaque red, as in the spec's fallback test. -/
def redRGBA : RGBA := ⟨1, 0, 0, 1⟩

/-- Opaque green, as in the spec's fallback test. -/
def greenRGBA : RGBA := ⟨0, 1, 0, 1⟩

/-- The escaping test input of the spec (an apostrophe-bearing script
tag), assembled without apostrophe literals. -/
def xssInput : String :=
  "<script>alert(" ++ aposStr ++ "xss" ++ aposStr ++ ")</script>"

/-! Theorems.  First the bridge between the executable `Rat.floor` /
`Rat.ceil` and the mathematical `⌊⌋`/`⌈⌉`. -/

theorem ratFloor_eq_floor (q : ℚ) : q.floor = ⌊q⌋ :=
  (Rat.floor_def' q).trans Rat.floor_def.symm

theorem ratCeil_eq_ceil (q : ℚ) : q.ceil = ⌈q⌉ := by
  by_cases h : q.den = 1
  · have hq : (q.num : ℚ) = q := (Rat.den_eq_one_iff q).mp h
    rw [Rat.ceil, if_pos h]
    conv_rhs => rw [← hq, Int.ceil_intCast]
  · have hne : (⌈q⌉ : ℚ) ≠ q := by
      intro hc
      exact h (by rw [← hc]; exact Rat.den_intCast _)
    have h1 : ⌈q⌉ = ⌊q⌋ + 1 := by
      refine le_antisymm ?_ ?_
      · exact Int.ceil_le.mpr (by push_cast; linarith [Int.lt_floor_add_one q])
      · have : ⌊q⌋ < ⌈q⌉ :=
          Int.floor_lt.mpr (lt_of_le_of_ne (Int.le_ceil q) (Ne.symm hne))
        omega
    rw [Rat.ceil, if_neg h, h1, ← Rat.floor_def]

theorem truncInt_nonneg_eq (q : ℚ) (h : 0 ≤ q) : truncInt q = ⌊q⌋ := by
  rw [truncInt, if_pos h, ratFloor_eq_floor]

theorem truncInt_neg_eq (q : ℚ) (h : ¬ 0 ≤ q) : truncInt q = ⌈q⌉ := by
  rw [truncInt, if_neg h, ratCeil_eq_ceil]

/-! Properties of the decimal formatter. -/

theorem readNat_append_digit (l : List Char) (c : Char) :
    readNat (l ++ [c]) = 10 * readNat l + (c.toNat - 48) := by
  simp [readNat, List.foldl_append]

theorem digitChar_toNat (d : ℕ) (hd : d < 10) :
    (Nat.digitChar d).toNat = 48 + d := by
  interval_cases d <;> rfl

theorem readNat_natToDecAux (fuel : ℕ) :
    ∀ n, n ≤ fuel → readNat (natToDecAux fuel n) = n := by
  induction fuel with
  | zero =>
    intro n hn
    interval_cases n
    simp [natToDecAux, readNat]
  | succ f ih =>
    intro n hn
    match n with
    | 0 => simp [natToDecAux, readNat]
    | m + 1 =>
      have hdiv : (m + 1) / 10 ≤ f := by
        have := Nat.div_lt_self (Nat.succ_pos m) (by norm_num : 1 < 10)
        omega
      rw [show natToDecAux (f + 1) (m + 1)
            = natToDecAux f ((m + 1) / 10) ++ [Nat.digitChar ((m + 1) % 10)]
          from rfl,
        readNat_append_digit, ih _ hdiv,
        digitChar_toNat _ (Nat.mod_lt _ (by norm_num))]
      omega

theorem readNat_natToDecData (n : ℕ) : readNat (natToDecData n) = n := by
  by_cases h : n = 0
  · subst h
    simp [natToDecData, readNat]
  · rw [natToDecData, if_neg h]
    exact readNat_natToDecAux n n le_rfl

theorem natToDecData_inj {a b : ℕ} (h : natToDecData a = natToDecData b) :
    a = b := by
  have ha := readNat_natToDecData a
  rw [h, readNat_natToDecData] at ha
  exact ha.symm

theorem natToDec_inj {a b : ℕ} (h : natToDec a = natToDec b) : a = b :=
  natToDecData_inj (congrArg String.data h)

theorem natToDecAux_chars (fuel : ℕ) :
    ∀ n, ∀ c ∈ natToDecAux fuel n, ∃ d, d < 10 ∧ c = Nat.digitChar d := by
  induction fuel with
  | zero =>
    intro n c hc
    match n with
    | 0 => simp [natToDecAux] at hc
    | _ + 1 => simp [natToDecAux] at hc
  | succ f ih =>
    intro n c hc
    match n with
    | 0 => simp [natToDecAux] at hc
    | m + 1 =>
      rw [show natToDecAux (f + 1) (m + 1)
            = natToDecAux f ((m + 1) / 10) ++ [Nat.digitChar ((m + 1) % 10)]
          from rfl] at hc
      rcases List.mem_append.mp hc with h1 | h1
      · exact ih _ c h1
      · rcases List.mem_singleton.mp h1 with rfl
        exact ⟨(m + 1) % 10, Nat.mod_lt _ (by norm_num), rfl⟩

theorem natToDecData_chars (n : ℕ) :
    ∀ c ∈ natToDecData n, ∃ d, d < 10 ∧ c = Nat.digitChar d := by
  intro c hc
  by_cases h : n = 0
  · subst h
    rw [natToDecData, if_pos rfl] at hc
    rcases List.mem_singleton.mp hc with rfl
    exact ⟨0, by norm_num, rfl⟩
  · rw [natToDecData, if_neg h] at hc
    exact natToDecAux_chars n n c hc

/-! C1 and C2: the path-data encoder. -/

/-- C2: encoding the path `[move(10,20), line(30,40), quad(50,60,70,80),
cubic(90,100,110,120,130,140), close]` yields exactly
`"M10 20L30 40Q50 60 70 80C90 100 110 120 130 140Z"` — one command letter
per segment, commands concatenated with no separators, operands
space-separated. -/
theorem c2_pathToD_roundtrip :
    pathToD [.moveTo ⟨10, 20⟩, .lineTo ⟨30, 40⟩,
      .quadTo ⟨50, 60⟩ ⟨70, 80⟩,
      .cubicTo ⟨90, 100⟩ ⟨110, 120⟩ ⟨130, 140⟩, .close] =
    "M10 20L30 40Q50 60 70 80C90 100 110 120 130 140Z" := by
  decide

/-- C1, counterexample: on a path containing a segment outside the five
recognized kinds the encoder does not fail — `pathToD` is a total,
string-valued function with no error channel (the type switch in the
source has no default case and the function returns only a string), and
here it returns a path-data string, silently dropping the unrecognized
element. -/
theorem c1_counterexample :
    pathToD [.moveTo ⟨10, 20⟩, PathElem.other, .lineTo ⟨30, 40⟩] =
      "M10 20L30 40" := by
  decide

/-- C1, amended: the encoder never fails on an unrecognized segment kind;
such segments are silently skipped, and the result equals the encoding of
the subsequence of recognized segments. -/
theorem c1_amended_unrecognized_skipped (es : List PathElem) :
    pathToD es = pathToD (es.filter isRecognized) := by
  suffices h : ∀ (d : String) (es : List PathElem),
      es.foldl (fun d e => d ++ elemD e) d
        = (es.filter isRecognized).foldl (fun d e => d ++ elemD e) d by
    exact h "" es
  intro d es
  induction es generalizing d with
  | nil => rfl
  | cons e es ih =>
    cases he : isRecognized e with
    | true =>
      rw [List.foldl_cons, List.filter_cons, if_pos (by simp [he]),
        List.foldl_cons, ih]
    | false =>
      have hother : e = PathElem.other := by
        cases e <;> simp_all [isRecognized]
      subst hother
      rw [List.foldl_cons, List.filter_cons, if_neg (by simp [he])]
      have hd : d ++ elemD PathElem.other = d := by
        show d ++ "" = d
        simp
      rw [hd, ih]

/-! C3: unbalanced Restore is a no-op. -/

/-- C3: with an empty state stack, any number of `Restore()` calls leaves
the backend state — transform, clip reference, content buffer and open
scope count included — completely unchanged and raises no error. -/
theorem c3_restore_empty_noop (b : Backend) (n : ℕ)
    (h : b.stateStack = []) : restore^[n] b = b := by
  have h1 : restore b = b := by
    rw [restore, h]
  induction n with
  | zero => rfl
  | succ m ih => rw [Function.iterate_succ_apply, h1, ih]

/-- Witness for C3 at a concrete freshly begun document and three calls. -/
theorem c3_witness :
    restore^[3] (beginDoc 400 300 newBackend) = beginDoc 400 300 newBackend :=
  c3_restore_empty_noop (beginDoc 400 300 newBackend) 3 rfl
/-! State-component lemmas for the paint encoders. -/

theorem writeFill_groupDepth (b : Backend) (br : Brush) :
    (writeFill b br).groupDepth = b.groupDepth := by
  cases br with
  | solid c => rfl
  | linear g => rfl
  | radial g => rfl
  | sweep stops => cases stops <;> rfl
  | other => rfl

theorem writeFill_stateStack (b : Backend) (br : Brush) :
    (writeFill b br).stateStack = b.stateStack := by
  cases br with
  | solid c => rfl
  | linear g => rfl
  | radial g => rfl
  | sweep stops => cases stops <;> rfl
  | other => rfl

theorem writeStroke_groupDepth (b : Backend) (br : Brush) (st : Stroke) :
    (writeStroke b br st).groupDepth = b.groupDepth := by
  cases br <;> rfl

theorem writeStroke_stateStack (b : Backend) (br : Brush) (st : Stroke) :
    (writeStroke b br st).stateStack = b.stateStack := by
  cases br <;> rfl

/-- One step of the C4 invariant: every operation preserves the equality
of open-scope count and stack depth. -/
theorem applyOp_depth_eq (b : Backend) (op : Op)
    (h : b.groupDepth = b.stateStack.length) :
    (applyOp b op).groupDepth = (applyOp b op).stateStack.length := by
  cases op with
  | save =>
    show b.groupDepth + 1 = (_ :: b.stateStack).length
    simp [h]
  | restore =>
    show (restore b).groupDepth = (restore b).stateStack.length
    rw [restore]
    cases hs : b.stateStack with
    | nil => simpa [hs] using h
    | cons st rest =>
      rw [hs] at h
      have hpos : 0 < b.groupDepth := by simp [h]
      simp only []
      rw [if_pos hpos]
      simp at h ⊢
      omega
  | setTransform m => exact h
  | setClip p r =>
    cases p with
    | none => exact h
    | some pp => exact h
  | clearClip => exact h
  | fillPath p br r =>
    cases p with
    | none => exact h
    | some pp =>
      show (writeFill _ br).groupDepth = (writeFill _ br).stateStack.length
      rw [writeFill_groupDepth, writeFill_stateStack]
      exact h
  | strokePath p br st =>
    cases p with
    | none => exact h
    | some pp =>
      show (writeStroke _ br st).groupDepth
        = (writeStroke _ br st).stateStack.length
      rw [writeStroke_groupDepth, writeStroke_stateStack]
      exact h
  | fillRect rect br =>
    show (writeFill _ br).groupDepth = (writeFill _ br).stateStack.length
    rw [writeFill_groupDepth, writeFill_stateStack]
    exact h
  | drawImage enc dst alpha =>
    cases enc with
    | none => exact h
    | some payload =>
      simp only [applyOp, drawImage]
      exact h
  | drawText str x y face br =>
    simp only [applyOp, drawText]
    rw [writeFill_groupDepth, writeFill_stateStack]
    exact h

/-- C4: `groupDepth == len(stateStack)` holds after `Begin` and is
preserved by every backend operation — drawing calls included — so it
holds in every reachable state. -/
theorem c4_scope_count_invariant (b : Backend) (w h : ℤ) (ops : List Op) :
    (runOps (beginDoc w h b) ops).groupDepth
      = (runOps (beginDoc w h b) ops).stateStack.length := by
  suffices hr : ∀ (ops : List Op) (b0 : Backend),
      b0.groupDepth = b0.stateStack.length →
      (runOps b0 ops).groupDepth = (runOps b0 ops).stateStack.length from
    hr ops (beginDoc w h b) rfl
  intro ops
  induction ops with
  | nil => intro b0 h0; exact h0
  | cons op ops ih =>
    intro b0 h0
    exact ih (applyOp b0 op) (applyOp_depth_eq b0 op h0)

/-! C5: the document assembler. -/

theorem string_empty_append (s : String) : "" ++ s = s := by
  cases s
  rfl

theorem string_join_cons (a : String) (l : List String) :
    String.join (a :: l) = a ++ String.join l := by
  suffices hgen : ∀ (l : List String) (init : String),
      l.foldl (fun r s => r ++ s) init = init ++ l.foldl (fun r s => r ++ s) "" by
    show (a :: l).foldl (fun r s => r ++ s) "" = a ++ l.foldl (fun r s => r ++ s) ""
    rw [List.foldl_cons, hgen l ("" ++ a), string_empty_append]
  intro l
  induction l with
  | nil =>
    intro init
    show init = init ++ ""
    cases init
    show String.mk _ = String.mk (_ ++ [])
    rw [List.append_nil]
  | cons x xs ih =>
    intro init
    rw [List.foldl_cons, List.foldl_cons, ih ("" ++ x), string_empty_append,
      ih (init ++ x), String.append_assoc]

theorem closeGroups_eq_join (n : ℕ) :
    closeGroups n = String.join (List.replicate n "</g>") := by
  induction n with
  | zero => rfl
  | succ m ih =>
    rw [closeGroups, ih, List.replicate_succ, string_join_cons]

/-- C5: serialization emits, in order: the XML declaration and the
opening root element whose width, height and view box are formatted from
the same two dimensions; the definitions block exactly when the
definitions buffer is non-empty; the content buffer verbatim; one `</g>`
per open scope counted in `groupDepth`, whatever that count is; and the
closing root element. -/
theorem c5_writeTo_order (b : Backend) :
    writeTo b =
      ("<?xml version=\"1.0\" encoding=\"UTF-8\"?>\n<svg xmlns=\"http://www.w3.org/2000/svg\" xmlns:xlink=\"http://www.w3.org/1999/xlink\" width=\""
          ++ intToDec b.width ++ "\" height=\"" ++ intToDec b.height ++
          "\" viewBox=\"0 0 " ++ intToDec b.width ++ " " ++
          intToDec b.height ++ "\">\n") ++
        (if b.defs = "" then "" else "<defs>" ++ b.defs ++ "</defs>\n") ++
        b.builder ++
        String.join (List.replicate b.groupDepth "</g>") ++
        "\n</svg>\n" := by
  rw [writeTo, closeGroups_eq_join]
/-! C7: the unsupported-paint (sweep) fill fallback. -/

theorem string_append_empty (s : String) : s ++ "" = s := by
  cases s
  show String.mk (_ ++ []) = _
  rw [List.append_nil]

/-- C7: a sweep paint used as a fill falls back to the color of its first
stop; with no stops it falls back to opaque black; the encoder is a total
function and never errors.  In particular the sweep paint with stops
`[(0,red),(1,green)]` produces exactly the state a solid opaque red fill
produces. -/
theorem c7_sweep_fill_fallback :
    (∀ (b : Backend) (st : GradStop) (rest : List GradStop),
      writeFill b (.sweep (st :: rest)) =
        { b with
          builder := b.builder ++ " fill=\"" ++ colorToCSS st.color ++ "\"" }) ∧
    (∀ b : Backend, writeFill b (.sweep []) =
        { b with builder := b.builder ++ " fill=\"black\"" }) ∧
    (∀ b : Backend,
      writeFill b (.sweep [⟨0, redRGBA⟩, ⟨1, greenRGBA⟩])
        = writeFill b (.solid redRGBA)) := by
  refine ⟨fun b st rest => rfl, fun b => rfl, fun b => ?_⟩
  simp only [writeFill]
  rw [if_neg (by norm_num [redRGBA])]
  rw [string_append_empty]

/-! C10: the color-to-CSS conversion. -/

theorem colorToCSS_eval (c : RGBA) (ir ig ib : ℤ)
    (hr : truncInt (c.r * 255) = ir) (hg : truncInt (c.g * 255) = ig)
    (hb : truncInt (c.b * 255) = ib) :
    colorToCSS c = "rgb(" ++ intToDec ir ++ "," ++ intToDec ig ++ "," ++
      intToDec ib ++ ")" := by
  rw [colorToCSS, hr, hg, hb]

/-- C10: channel conversion is `int(c*255)` — truncation toward zero, not
rounding (the magnitude of the result is the floor of the magnitude of
the input), with no clamping: 0.999 maps to 254 and not 255, channels
outside `[0,1]` yield out-of-range components, and the alpha channel
never affects the `rgb(...)` string. -/
theorem c10_colorToCSS_truncates :
    (∀ r g b a₁ a₂ : ℚ, colorToCSS ⟨r, g, b, a₁⟩ = colorToCSS ⟨r, g, b, a₂⟩) ∧
    (∀ q : ℚ, |(truncInt q : ℚ)| ≤ |q| ∧ |q| < |(truncInt q : ℚ)| + 1) ∧
    colorToCSS ⟨999/1000, 0, 0, 1⟩ = "rgb(254,0,0)" ∧
    colorToCSS ⟨2, -1, 0, 1⟩ = "rgb(510,-255,0)" ∧
    colorToCSS ⟨-(1/2), 0, 0, 1⟩ = "rgb(-127,0,0)" := by
  have hzero : truncInt ((0 : ℚ) * 255) = 0 := by
    rw [truncInt_nonneg_eq _ (by norm_num), Int.floor_eq_iff] <;> norm_num
  refine ⟨fun r g b a₁ a₂ => rfl, ?_, ?_, ?_, ?_⟩
  · intro q
    rcases le_or_lt 0 q with h | h
    · rw [truncInt_nonneg_eq q h]
      have h1 := Int.floor_le q
      have h2 := Int.lt_floor_add_one q
      have h3 : (0 : ℚ) ≤ (⌊q⌋ : ℚ) := by
        exact_mod_cast Int.floor_nonneg.mpr h
      rw [abs_of_nonneg h, abs_of_nonneg h3]
      exact ⟨h1, h2⟩
    · rw [truncInt_neg_eq q (not_le.mpr h)]
      have h1 := Int.le_ceil q
      have h2 := Int.ceil_lt_add_one q
      have h3 : (⌈q⌉ : ℚ) ≤ 0 := by
        have : ⌈q⌉ ≤ (0 : ℤ) := Int.ceil_le.mpr (by push_cast; exact h.le)
        exact_mod_cast this
      rw [abs_of_nonpos h.le, abs_of_nonpos h3]
      constructor <;> linarith
  · have h999 : truncInt ((999 : ℚ) / 1000 * 255) = 254 := by
      rw [truncInt_nonneg_eq _ (by norm_num), Int.floor_eq_iff] <;> norm_num
    exact (colorToCSS_eval ⟨999/1000, 0, 0, 1⟩ 254 0 0 h999 hzero hzero).trans
      (by decide)
  · have h2 : truncInt ((2 : ℚ) * 255) = 510 := by
      rw [truncInt_nonneg_eq _ (by norm_num), Int.floor_eq_iff] <;> norm_num
    have hm1 : truncInt ((-1 : ℚ) * 255) = -255 := by
      rw [truncInt_neg_eq _ (by norm_num), Int.ceil_eq_iff] <;> norm_num
    exact (colorToCSS_eval ⟨2, -1, 0, 1⟩ 510 (-255) 0 h2 hm1 hzero).trans
      (by decide)
  · have hmh : truncInt (-((1 : ℚ) / 2) * 255) = -127 := by
      rw [truncInt_neg_eq _ (by norm_num), Int.ceil_eq_iff] <;> norm_num
    exact (colorToCSS_eval ⟨-(1/2), 0, 0, 1⟩ (-127) 0 0 hmh hzero hzero).trans
      (by decide)


/-! C6: XML escaping. -/

theorem replaceAllAux_single (c : Char) (nw : List Char) :
    ∀ fuel s, s.length ≤ fuel →
      replaceAllAux [c] nw fuel s
        = (s.map fun a => if a = c then nw else [a]).flatten := by
  intro fuel
  induction fuel with
  | zero =>
    intro s hs
    have hnil : s = [] := List.eq_nil_of_length_eq_zero (Nat.le_zero.mp hs)
    subst hnil
    rfl
  | succ f ih =>
    intro s hs
    cases s with
    | nil => rfl
    | cons a s =>
      have hlen : s.length ≤ f := by
        simpa using hs
      simp only [replaceAllAux]
      by_cases hac : a = c
      · subst hac
        rw [if_pos (by simp [startsWith])]
        simp [ih s hlen]
      · rw [if_neg (by simp [startsWith, Ne.symm hac])]
        simp [ih s hlen, hac]

theorem replaceAll_single (c : Char) (nw s : List Char) :
    replaceAll [c] nw s = (s.map fun a => if a = c then nw else [a]).flatten :=
  replaceAllAux_single c nw s.length s le_rfl

theorem flatten_map_append (g : Char → List Char) (l₁ l₂ : List Char) :
    ((l₁ ++ l₂).map g).flatten = (l₁.map g).flatten ++ (l₂.map g).flatten := by
  rw [List.map_append, List.flatten_append]

/-- Single induction collapsing the five escape passes to a per-character
map. -/
theorem escData_eq_flatten (s : List Char) :
    escData s = (s.map escChar).flatten := by
  rw [escData, replaceAll_single, replaceAll_single, replaceAll_single,
    replaceAll_single, replaceAll_single]
  induction s with
  | nil => rfl
  | cons a s ih =>
    rw [List.map_cons, List.flatten_cons, flatten_map_append,
      flatten_map_append, flatten_map_append, flatten_map_append,
      List.map_cons, List.flatten_cons, ih]
    congr 1
    by_cases h1 : a = '&'
    · subst h1; decide
    by_cases h2 : a = '<'
    · subst h2; decide
    by_cases h3 : a = '>'
    · subst h3; decide
    by_cases h4 : a = '"'
    · subst h4; decide
    by_cases h5 : a = aposChar
    · subst h5; decide
    simp [escChar, h1, h2, h3, h4, h5]

theorem mem_escChar_entity (a c : Char) (hc : c ∈ escChar a) :
    (c = a ∧ a ≠ '&' ∧ a ≠ '<' ∧ a ≠ '>' ∧ a ≠ '"' ∧ a ≠ aposChar) ∨
      c ∈ ['&', 'a', 'm', 'p', ';', 'l', 't', 'g', 'q', 'u', 'o', 's'] := by
  unfold escChar at hc
  by_cases h1 : a = '&'
  · right; subst h1; simp at hc; rcases hc with h | h | h | h | h <;> simp [h]
  by_cases h2 : a = '<'
  · right; subst h2; simp [h1] at hc; rcases hc with h | h | h | h <;> simp [h]
  by_cases h3 : a = '>'
  · right; subst h3; simp [h1, h2] at hc
    rcases hc with h | h | h | h <;> simp [h]
  by_cases h4 : a = '"'
  · right; subst h4; simp [h1, h2, h3] at hc
    rcases hc with h | h | h | h | h | h <;> simp [h]
  by_cases h5 : a = aposChar
  · right; subst h5; simp [h1, h2, h3, h4] at hc
    rcases hc with h | h | h | h | h | h <;> simp [h]
  left
  rw [if_neg h1, if_neg h2, if_neg h3, if_neg h4, if_neg h5] at hc
  exact ⟨List.mem_singleton.mp hc, h1, h2, h3, h4, h5⟩

theorem escChar_count_amp (a : Char) :
    (escChar a).count '&'
      = (if a == '&' || a == '<' || a == '>' || a == '"' || a == aposChar
          then 1 else 0) := by
  unfold escChar
  by_cases h1 : a = '&'
  · subst h1; decide
  by_cases h2 : a = '<'
  · subst h2; decide
  by_cases h3 : a = '>'
  · subst h3; decide
  by_cases h4 : a = '"'
  · subst h4; decide
  by_cases h5 : a = aposChar
  · subst h5; decide
  rw [if_neg h1, if_neg h2, if_neg h3, if_neg h4, if_neg h5]
  simp [h1, h2, h3, h4, h5, List.count_singleton]

theorem escData_not_mem (s : List Char) (c : Char)
    (hc : c = '<' ∨ c = '>' ∨ c = '"' ∨ c = aposChar) : c ∉ escData s := by
  intro hmem
  rw [escData_eq_flatten] at hmem
  rcases List.mem_flatten.mp hmem with ⟨l, hl, hcl⟩
  rcases List.mem_map.mp hl with ⟨a, _, rfl⟩
  rcases mem_escChar_entity a c hcl with ⟨rfl, _, h2, h3, h4, h5⟩ | hlist
  · rcases hc with h | h | h | h
    · exact h2 h
    · exact h3 h
    · exact h4 h
    · exact h5 h
  · rcases hc with h | h | h | h <;> subst h <;> revert hlist <;> decide

theorem escData_count_amp (s : List Char) :
    (escData s).count '&'
      = s.countP
          (fun a => a == '&' || a == '<' || a == '>' || a == '"' || a == aposChar) := by
  rw [escData_eq_flatten]
  induction s with
  | nil => rfl
  | cons a s ih =>
    rw [List.map_cons, List.flatten_cons, List.count_append, ih,
      List.countP_cons, escChar_count_amp]
    exact Nat.add_comm _ _

theorem drawText_solid_builder (s : String) (x y : ℚ) (face : Option Face)
    (c : RGBA) (b : Backend) (hc : ¬ c.a < 1) :
    (drawText s x y face (.solid c) b).builder
      = b.builder ++ "<text" ++ transformAttr b.currentTransform ++
        clipAttr b.currentClipID ++ " x=\"" ++ fmtG x ++ "\" y=\"" ++
        fmtG y ++ "\"" ++ " font-size=\"" ++ fmtG (fontSizeOf face) ++
        "\"" ++ " fill=\"" ++ colorToCSS c ++ "\"" ++ ">" ++
        escapeXML s ++ "</text>" := by
  simp only [drawText, writeFill]
  rw [if_neg hc, string_append_empty]

theorem colorToCSS_black (a : ℚ) : colorToCSS ⟨0, 0, 0, a⟩ = "rgb(0,0,0)" := by
  have hzero : truncInt ((0 : ℚ) * 255) = 0 := by
    rw [truncInt_nonneg_eq _ (by norm_num), Int.floor_eq_iff] <;> norm_num
  exact (colorToCSS_eval ⟨0, 0, 0, a⟩ 0 0 0 hzero hzero hzero).trans (by decide)

/-- C6: the escaper removes every literal `<`, `>`, `"` and apostrophe
from the text (their counts in the output are zero), and every `&` of the
output is introduced by an escape (the count of `&` equals the number of
escaped characters of the input); in particular `DrawText` on the input
`<script>alert('xss')</script>` emits markup with no literal `<script>`
substring and with the escaped `&lt;script&gt;` present. -/
theorem c6_drawText_escapes :
    (∀ s : String, (escapeXML s).data.count '<' = 0 ∧
      (escapeXML s).data.count '>' = 0 ∧
      (escapeXML s).data.count '"' = 0 ∧
      (escapeXML s).data.count aposChar = 0) ∧
    (∀ s : String, (escapeXML s).data.count '&'
      = s.data.countP
          (fun a => a == '&' || a == '<' || a == '>' || a == '"' ||
            a == aposChar)) ∧
    occursIn "<script>".data
      ((drawText xssInput 100 150 none (.solid ⟨0, 0, 0, 1⟩)
          (beginDoc 400 300 newBackend)).builder).data = false ∧
    occursIn "&lt;script&gt;".data
      ((drawText xssInput 100 150 none (.solid ⟨0, 0, 0, 1⟩)
          (beginDoc 400 300 newBackend)).builder).data = true := by
  have hbuild := drawText_solid_builder xssInput 100 150 none ⟨0, 0, 0, 1⟩
      (beginDoc 400 300 newBackend) (by norm_num)
  rw [colorToCSS_black] at hbuild
  refine ⟨fun s => ⟨?_, ?_, ?_, ?_⟩, fun s => escData_count_amp s.data,
    ?_, ?_⟩
  · exact List.count_eq_zero.mpr (escData_not_mem s.data '<' (Or.inl rfl))
  · exact List.count_eq_zero.mpr
      (escData_not_mem s.data '>' (Or.inr (Or.inl rfl)))
  · exact List.count_eq_zero.mpr
      (escData_not_mem s.data '"' (Or.inr (Or.inr (Or.inl rfl))))
  · exact List.count_eq_zero.mpr
      (escData_not_mem s.data aposChar (Or.inr (Or.inr (Or.inr rfl))))
  · rw [hbuild]
    decide
  · rw [hbuild]
    decide


/-! C8: the linear-gradient spread attribute. -/

theorem string_data_append (a b : String) : (a ++ b).data = a.data ++ b.data := by
  cases a
  cases b
  rfl

theorem substrP_mem {p s : List Char} {c : Char} (h : SubstrP p s)
    (hc : c ∈ p) : c ∈ s := by
  rcases h with ⟨l, r, rfl⟩
  simp [List.mem_append, hc]

theorem substrP_append_expand {p a : List Char} (b : List Char)
    (h : SubstrP p a) : SubstrP p (a ++ b) := by
  rcases h with ⟨l, r, rfl⟩
  exact ⟨l, r ++ b, by simp [List.append_assoc]⟩

theorem substrP_expand_left {p b : List Char} (a : List Char)
    (h : SubstrP p b) : SubstrP p (a ++ b) := by
  rcases h with ⟨l, r, rfl⟩
  exact ⟨a ++ l, r, by simp [List.append_assoc]⟩

theorem substrP_str_append_right {p : List Char} (a b : String)
    (h : SubstrP p a.data) : SubstrP p (a ++ b).data := by
  rw [string_data_append]
  exact substrP_append_expand b.data h

theorem substrP_str_append_left {p : List Char} (a b : String)
    (h : SubstrP p b.data) : SubstrP p (a ++ b).data := by
  rw [string_data_append]
  exact substrP_expand_left a.data h

theorem no_M_append {a b : String} (ha : 'M' ∉ a.data)
    (hb : 'M' ∉ b.data) : 'M' ∉ (a ++ b).data := by
  rw [string_data_append]
  intro h
  rcases List.mem_append.mp h with h | h
  · exact ha h
  · exact hb h

theorem natToDec_no_M (n : ℕ) : 'M' ∉ (natToDec n).data := by
  intro h
  rcases natToDecData_chars n 'M' h with ⟨d, hd, hc⟩
  interval_cases d <;> exact absurd hc (by decide)

theorem intToDec_no_M (i : ℤ) : 'M' ∉ (intToDec i).data := by
  rw [intToDec]
  by_cases hi : i < 0
  · rw [if_pos hi]
    exact no_M_append (by decide) (natToDec_no_M _)
  · rw [if_neg hi]
    exact natToDec_no_M _

theorem fracDigits_no_M (q : ℚ) : 'M' ∉ fracDigits q := by
  intro h
  rcases natToDecData_chars _ 'M' h with ⟨d, hd, hc⟩
  interval_cases d <;> exact absurd hc (by decide)

theorem fmtG_no_M (q : ℚ) : 'M' ∉ (fmtG q).data := by
  rw [fmtG]
  by_cases h1 : q.den = 1
  · rw [if_pos h1]
    exact intToDec_no_M _
  · rw [if_neg h1]
    by_cases h2 : q < 0
    · rw [if_pos h2]
      refine no_M_append (no_M_append (no_M_append (by decide) ?_) (by decide)) ?_
      · exact natToDec_no_M _
      · exact fracDigits_no_M _
    · rw [if_neg h2]
      refine no_M_append (no_M_append ?_ (by decide)) ?_
      · exact natToDec_no_M _
      · exact fracDigits_no_M _

theorem colorToCSS_no_M (c : RGBA) : 'M' ∉ (colorToCSS c).data := by
  rw [colorToCSS]
  repeat' apply no_M_append
  all_goals first
    | decide
    | exact intToDec_no_M _

theorem stopStr_no_M (st : GradStop) : 'M' ∉ (stopStr st).data := by
  rw [stopStr]
  by_cases ha : st.color.a < 1
  · rw [if_pos ha]
    repeat' apply no_M_append
    all_goals first
      | decide
      | exact fmtG_no_M _
      | exact colorToCSS_no_M _
      | exact intToDec_no_M _
  · rw [if_neg ha]
    repeat' apply no_M_append
    all_goals first
      | decide
      | exact fmtG_no_M _
      | exact colorToCSS_no_M _
      | exact intToDec_no_M _

theorem stopsFoldl_no_M (stops : List GradStop) :
    'M' ∉ (stops.foldl (fun acc st => acc ++ stopStr st) "").data := by
  suffices hgen : ∀ (init : String), 'M' ∉ init.data →
      'M' ∉ (stops.foldl (fun acc st => acc ++ stopStr st) init).data from
    hgen "" (by decide)
  induction stops with
  | nil => intro init h; exact h
  | cons st stops ih =>
    intro init h
    rw [List.foldl_cons]
    exact ih _ (no_M_append h (stopStr_no_M st))

theorem linGradFragment_no_M (gid : String) (br : LinearGradientBrush)
    (hgid : 'M' ∉ gid.data) (hspread : linGradSpread br = "") :
    'M' ∉ (linGradFragment gid br).data := by
  rw [linGradFragment]
  repeat' apply no_M_append
  all_goals first
    | decide
    | exact hgid
    | exact fmtG_no_M _
    | exact stopsFoldl_no_M _
    | (rw [hspread]; decide)

/-- C8: the spread attribute text of a linear gradient definition is
present exactly when the gradient's spread mode is repeat or reflect and
its start-to-end vector has positive (squared) length; a zero-length
vector silently omits it.  The first conjunct ties the analysed fragment
to the one `addLinearGradient` actually appends to the definitions
buffer. -/
theorem c8_spread_attr_iff (b : Backend) (br : LinearGradientBrush) :
    (addLinearGradient b br).1.defs
        = b.defs ++ linGradFragment ("lg" ++ natToDec (b.idCounter + 1)) br ∧
    (SubstrP "spreadMethod".data
        (linGradFragment ("lg" ++ natToDec (b.idCounter + 1)) br).data ↔
      (br.extend = .repeatMode ∨ br.extend = .reflect) ∧ 0 < lengthSq br) := by
  refine ⟨rfl, ⟨fun hsub => ?_, fun hc => ?_⟩⟩
  · by_contra hnc
    have hspread : linGradSpread br = "" := by
      rw [linGradSpread]
      by_cases hl : 0 < lengthSq br
      · rw [if_pos hl]
        cases hext : br.extend with
        | pad => rfl
        | repeatMode => exact absurd ⟨Or.inl hext, hl⟩ hnc
        | reflect => exact absurd ⟨Or.inr hext, hl⟩ hnc
      · rw [if_neg hl]
    have hgid : 'M' ∉ ("lg" ++ natToDec (b.idCounter + 1)).data :=
      no_M_append (by decide) (natToDec_no_M _)
    exact linGradFragment_no_M _ br hgid hspread
      (substrP_mem hsub (by decide))
  · rcases hc with ⟨hext, hl⟩
    have hs : linGradSpread br = " spreadMethod=\"repeat\"" ∨
        linGradSpread br = " spreadMethod=\"reflect\"" := by
      rw [linGradSpread, if_pos hl]
      rcases hext with h | h
      · rw [h]
        exact Or.inl rfl
      · rw [h]
        exact Or.inr rfl
    rw [linGradFragment]
    apply substrP_str_append_right
    apply substrP_str_append_right
    apply substrP_str_append_left
    rcases hs with h | h
    · rw [h]
      exact ⟨[' '], "=\"repeat\"".data, by decide⟩
    · rw [h]
      exact ⟨[' '], "=\"reflect\"".data, by decide⟩


/-! C9: resource-id integrity along a run. -/

theorem prefixed_id_ne {p q : String} (hp : p ∈ idPrefixes)
    (hq : q ∈ idPrefixes) {k l : ℕ} (hkl : k ≠ l) :
    p ++ natToDec k ≠ q ++ natToDec l := by
  intro he
  have hdata := congrArg String.data he
  rw [string_data_append, string_data_append] at hdata
  fin_cases hp <;> fin_cases hq <;>
    simp only [natToDec] at hdata <;>
    first
      | (simp at hdata; exact hkl (natToDecData_inj hdata))
      | simp at hdata

theorem restore_shape (b : Backend) :
    (b.stateStack = [] ∧ restore b = b) ∨
      ∃ st rest, b.stateStack = st :: rest ∧
        (restore b).currentClipID = st.clipID ∧
        (restore b).stateStack = rest ∧
        (restore b).idCounter = b.idCounter := by
  cases hs : b.stateStack with
  | nil =>
    left
    refine ⟨rfl, ?_⟩
    rw [restore, hs]
  | cons st rest =>
    right
    refine ⟨st, rest, rfl, ?_⟩
    rw [restore, hs]
    dsimp only
    split_ifs <;> exact ⟨rfl, rfl, rfl⟩

theorem writeFill_idCounter (b b0 : Backend) (br : Brush)
    (h : b.idCounter = b0.idCounter) :
    (writeFill b br).idCounter = b0.idCounter + (brushAllocs b0 br).length := by
  cases br with
  | solid c => simp [writeFill, brushAllocs, h]
  | linear g => simp [writeFill, brushAllocs, addLinearGradient, nextID, h]
  | radial g => simp [writeFill, brushAllocs, addRadialGradient, nextID, h]
  | sweep stops => cases stops <;> simp [writeFill, brushAllocs, h]
  | other => simp [writeFill, brushAllocs, h]

theorem writeFill_currentClipID (b : Backend) (br : Brush) :
    (writeFill b br).currentClipID = b.currentClipID := by
  cases br with
  | solid c => rfl
  | linear g => rfl
  | radial g => rfl
  | sweep stops => cases stops <;> rfl
  | other => rfl

theorem writeStroke_idCounter (b b0 : Backend) (br : Brush) (st : Stroke)
    (h : b.idCounter = b0.idCounter) :
    (writeStroke b br st).idCounter
      = b0.idCounter + (brushAllocs b0 br).length := by
  cases br with
  | solid c => simp [writeStroke, brushAllocs, h]
  | linear g => simp [writeStroke, brushAllocs, addLinearGradient, nextID, h]
  | radial g => simp [writeStroke, brushAllocs, addRadialGradient, nextID, h]
  | sweep stops => simp [writeStroke, brushAllocs, h]
  | other => simp [writeStroke, brushAllocs, h]

theorem writeStroke_currentClipID (b : Backend) (br : Brush) (st : Stroke) :
    (writeStroke b br st).currentClipID = b.currentClipID := by
  cases br <;> rfl

theorem brushAllocs_length (b : Backend) (br : Brush) :
    (brushAllocs b br).length ≤ 1 := by
  cases br <;> simp [brushAllocs]

theorem brushAllocs_mem (b : Backend) (br : Brush) :
    ∀ id ∈ brushAllocs b br,
      ∃ p, p ∈ idPrefixes ∧ id = p ++ natToDec (b.idCounter + 1) := by
  intro id hid
  cases br with
  | linear g =>
    rcases List.mem_singleton.mp hid with rfl
    exact ⟨"lg", by simp [idPrefixes], rfl⟩
  | radial g =>
    rcases List.mem_singleton.mp hid with rfl
    exact ⟨"rg", by simp [idPrefixes], rfl⟩
  | solid c => simp [brushAllocs] at hid
  | sweep stops => simp [brushAllocs] at hid
  | other => simp [brushAllocs] at hid

theorem allocsOp_mem (b : Backend) (op : Op) :
    ∀ id ∈ allocsOp b op,
      ∃ p, p ∈ idPrefixes ∧ id = p ++ natToDec (b.idCounter + 1) := by
  intro id hid
  cases op with
  | setClip p r =>
    cases p with
    | none => simp [allocsOp] at hid
    | some pp =>
      rcases List.mem_singleton.mp hid with rfl
      exact ⟨"clip", by simp [idPrefixes], rfl⟩
  | fillPath p br r =>
    cases p with
    | none => simp [allocsOp] at hid
    | some pp => exact brushAllocs_mem b br id hid
  | strokePath p br st =>
    cases p with
    | none => simp [allocsOp] at hid
    | some pp => exact brushAllocs_mem b br id hid
  | fillRect rect br => exact brushAllocs_mem b br id hid
  | drawText s x y face br => exact brushAllocs_mem b br id hid
  | save => simp [allocsOp] at hid
  | restore => simp [allocsOp] at hid
  | setTransform m => simp [allocsOp] at hid
  | clearClip => simp [allocsOp] at hid
  | drawImage enc dst alpha => simp [allocsOp] at hid

theorem allocsOp_length (b : Backend) (op : Op) :
    (allocsOp b op).length ≤ 1 := by
  cases op with
  | setClip p r => cases p <;> simp [allocsOp]
  | fillPath p br r =>
    cases p <;> simp [allocsOp, brushAllocs_length]
  | strokePath p br st =>
    cases p <;> simp [allocsOp, brushAllocs_length]
  | fillRect rect br => simp [allocsOp, brushAllocs_length]
  | drawText s x y face br => simp [allocsOp, brushAllocs_length]
  | save => simp [allocsOp]
  | restore => simp [allocsOp]
  | setTransform m => simp [allocsOp]
  | clearClip => simp [allocsOp]
  | drawImage enc dst alpha => simp [allocsOp]

theorem brushAllocs_congr (b b' : Backend) (h : b.idCounter = b'.idCounter)
    (br : Brush) : brushAllocs b br = brushAllocs b' br := by
  cases br <;> simp [brushAllocs, h]

theorem applyOp_idCounter (b : Backend) (op : Op) :
    (applyOp b op).idCounter = b.idCounter + (allocsOp b op).length := by
  cases op with
  | save => simp [applyOp, save, allocsOp]
  | restore =>
    rcases restore_shape b with ⟨hs, heq⟩ | ⟨st, rest, hs, _, _, hcnt⟩
    · show (restore b).idCounter = _
      rw [heq]
      simp [allocsOp]
    · show (restore b).idCounter = _
      rw [hcnt]
      simp [allocsOp]
  | setTransform m => simp [applyOp, setTransform, allocsOp]
  | setClip p r =>
    cases p with
    | none => simp [applyOp, setClip, allocsOp]
    | some pp => simp [applyOp, setClip, nextID, allocsOp]
  | clearClip => simp [applyOp, clearClip, allocsOp]
  | fillPath p br r =>
    cases p with
    | none => simp [applyOp, fillPath, allocsOp]
    | some pp =>
      show (fillPath (some pp) br r b).idCounter = _
      simp only [fillPath, allocsOp]
      exact writeFill_idCounter _ b br rfl
  | strokePath p br st =>
    cases p with
    | none => simp [applyOp, strokePath, allocsOp]
    | some pp =>
      show (strokePath (some pp) br st b).idCounter = _
      simp only [strokePath, allocsOp]
      exact writeStroke_idCounter _ b br st rfl
  | fillRect rect br =>
    show (fillRect rect br b).idCounter = _
    simp only [fillRect, allocsOp]
    exact writeFill_idCounter _ b br rfl
  | drawImage enc dst alpha =>
    cases enc with
    | none => simp [applyOp, drawImage, allocsOp]
    | some payload => simp [applyOp, drawImage, allocsOp]
  | drawText s x y face br =>
    show (drawText s x y face br b).idCounter = _
    simp only [drawText, allocsOp]
    exact writeFill_idCounter _ b br rfl

theorem clipRefs_sub (b : Backend) (acc : List String)
    (hclip : b.currentClipID = "" ∨ b.currentClipID ∈ acc) :
    ∀ r ∈ clipRefs b, r ∈ acc := by
  intro r hr
  rw [clipRefs] at hr
  by_cases h : b.currentClipID = ""
  · rw [if_pos h] at hr
    exact absurd hr (List.not_mem_nil r)
  · rw [if_neg h] at hr
    rcases List.mem_singleton.mp hr with rfl
    rcases hclip with h' | h'
    · exact absurd h' h
    · exact h'

theorem applyOp_clip_inv (b : Backend) (op : Op) (acc : List String)
    (hclip : b.currentClipID = "" ∨ b.currentClipID ∈ acc)
    (hstack : ∀ st ∈ b.stateStack, st.clipID = "" ∨ st.clipID ∈ acc) :
    ((applyOp b op).currentClipID = ""
        ∨ (applyOp b op).currentClipID ∈ acc ++ allocsOp b op) ∧
    (∀ st ∈ (applyOp b op).stateStack,
        st.clipID = "" ∨ st.clipID ∈ acc ++ allocsOp b op) := by
  have hlift : ∀ (x : String), x = "" ∨ x ∈ acc →
      x = "" ∨ x ∈ acc ++ allocsOp b op := by
    rintro x (h | h)
    exacts [Or.inl h, Or.inr (List.mem_append_left _ h)]
  cases op with
  | save =>
    refine ⟨hlift _ hclip, ?_⟩
    intro st hst
    rcases List.mem_cons.mp hst with rfl | hmem
    · exact hlift _ hclip
    · exact hlift _ (hstack st hmem)
  | restore =>
    rw [show applyOp b Op.restore = restore b from rfl]
    rcases restore_shape b with ⟨hs, heq⟩ | ⟨st0, rest, hs, hclip', hstack', _⟩
    · rw [heq]
      exact ⟨hlift _ hclip, fun st hst => hlift _ (hstack st hst)⟩
    · constructor
      · rw [hclip']
        refine hlift _ (hstack st0 ?_)
        rw [hs]
        exact List.mem_cons_self _ _
      · intro st hst
        rw [hstack'] at hst
        refine hlift _ (hstack st ?_)
        rw [hs]
        exact List.mem_cons_of_mem _ hst
  | setTransform m =>
    exact ⟨hlift _ hclip, fun st hst => hlift _ (hstack st hst)⟩
  | setClip p r =>
    cases p with
    | none => exact ⟨hlift _ hclip, fun st hst => hlift _ (hstack st hst)⟩
    | some pp =>
      constructor
      · right
        apply List.mem_append_right
        show _ ∈ ["clip" ++ natToDec (b.idCounter + 1)]
        exact List.mem_singleton.mpr rfl
      · intro st hst
        exact hlift _ (hstack st hst)
  | clearClip =>
    exact ⟨Or.inl rfl, fun st hst => hlift _ (hstack st hst)⟩
  | fillPath p br r =>
    cases p with
    | none => exact ⟨hlift _ hclip, fun st hst => hlift _ (hstack st hst)⟩
    | some pp =>
      constructor
      · have h1 : (applyOp b (.fillPath (some pp) br r)).currentClipID
            = b.currentClipID := by
          simp only [applyOp, fillPath]
          rw [writeFill_currentClipID]
        rw [h1]
        exact hlift _ hclip
      · intro st hst
        have h2 : (applyOp b (.fillPath (some pp) br r)).stateStack
            = b.stateStack := by
          simp only [applyOp, fillPath]
          rw [writeFill_stateStack]
        rw [h2] at hst
        exact hlift _ (hstack st hst)
  | strokePath p br stk =>
    cases p with
    | none => exact ⟨hlift _ hclip, fun st hst => hlift _ (hstack st hst)⟩
    | some pp =>
      constructor
      · have h1 : (applyOp b (.strokePath (some pp) br stk)).currentClipID
            = b.currentClipID := by
          simp only [applyOp, strokePath]
          rw [writeStroke_currentClipID]
        rw [h1]
        exact hlift _ hclip
      · intro st hst
        have h2 : (applyOp b (.strokePath (some pp) br stk)).stateStack
            = b.stateStack := by
          simp only [applyOp, strokePath]
          rw [writeStroke_stateStack]
        rw [h2] at hst
        exact hlift _ (hstack st hst)
  | fillRect rect br =>
    constructor
    · have h1 : (applyOp b (.fillRect rect br)).currentClipID
          = b.currentClipID := by
        simp only [applyOp, fillRect]
        rw [writeFill_currentClipID]
      rw [h1]
      exact hlift _ hclip
    · intro st hst
      have h2 : (applyOp b (.fillRect rect br)).stateStack = b.stateStack := by
        simp only [applyOp, fillRect]
        rw [writeFill_stateStack]
      rw [h2] at hst
      exact hlift _ (hstack st hst)
  | drawImage enc dst alpha =>
    cases enc with
    | none => exact ⟨hlift _ hclip, fun st hst => hlift _ (hstack st hst)⟩
    | some payload =>
      have h1 : (applyOp b (.drawImage (some payload) dst alpha)).currentClipID
          = b.currentClipID := by
        simp only [applyOp, drawImage]
      have h2 : (applyOp b (.drawImage (some payload) dst alpha)).stateStack
          = b.stateStack := by
        simp only [applyOp, drawImage]
      constructor
      · rw [h1]
        exact hlift _ hclip
      · intro st hst
        rw [h2] at hst
        exact hlift _ (hstack st hst)
  | drawText s x y face br =>
    constructor
    · have h1 : (applyOp b (.drawText s x y face br)).currentClipID
          = b.currentClipID := by
        simp only [applyOp, drawText]
        rw [writeFill_currentClipID]
      rw [h1]
      exact hlift _ hclip
    · intro st hst
      have h2 : (applyOp b (.drawText s x y face br)).stateStack
          = b.stateStack := by
        simp only [applyOp, drawText]
        rw [writeFill_stateStack]
      rw [h2] at hst
      exact hlift _ (hstack st hst)

theorem refsOp_sub (b : Backend) (op : Op) (acc : List String)
    (hclip : b.currentClipID = "" ∨ b.currentClipID ∈ acc) :
    ∀ r ∈ refsOp b op, r ∈ acc ++ allocsOp b op := by
  intro r hr
  cases op with
  | fillPath p br rule =>
    cases p with
    | none => simp [refsOp] at hr
    | some pp =>
      rcases List.mem_append.mp hr with h | h
      · exact List.mem_append_left _ (clipRefs_sub b acc hclip r h)
      · exact List.mem_append_right _ h
  | strokePath p br stk =>
    cases p with
    | none => simp [refsOp] at hr
    | some pp =>
      rcases List.mem_append.mp hr with h | h
      · exact List.mem_append_left _ (clipRefs_sub b acc hclip r h)
      · exact List.mem_append_right _ h
  | fillRect rect br =>
    rcases List.mem_append.mp hr with h | h
    · exact List.mem_append_left _ (clipRefs_sub b acc hclip r h)
    · exact List.mem_append_right _ h
  | drawImage enc dst alpha =>
    cases enc with
    | none => simp [refsOp] at hr
    | some payload =>
      exact List.mem_append_left _ (clipRefs_sub b acc hclip r hr)
  | drawText s x y face br =>
    rcases List.mem_append.mp hr with h | h
    · exact List.mem_append_left _ (clipRefs_sub b acc hclip r h)
    · exact List.mem_append_right _ h
  | save => simp [refsOp] at hr
  | restore => simp [refsOp] at hr
  | setTransform m => simp [refsOp] at hr
  | setClip p rule => cases p <;> simp [refsOp] at hr
  | clearClip => simp [refsOp] at hr

theorem run_id_integrity (ops : List Op) :
    ∀ (b : Backend) (acc : List String),
      (∀ id ∈ acc, ∃ p k, p ∈ idPrefixes ∧ id = p ++ natToDec k ∧
        1 ≤ k ∧ k ≤ b.idCounter) →
      acc.Nodup →
      (b.currentClipID = "" ∨ b.currentClipID ∈ acc) →
      (∀ st ∈ b.stateStack, st.clipID = "" ∨ st.clipID ∈ acc) →
      (∀ id ∈ acc ++ runAllocs b ops, ∃ p k, p ∈ idPrefixes ∧
        id = p ++ natToDec k ∧ 1 ≤ k ∧ k ≤ (runOps b ops).idCounter) ∧
      (acc ++ runAllocs b ops).Nodup ∧
      (∀ r ∈ runRefs b ops, r ∈ acc ++ runAllocs b ops) := by
  induction ops with
  | nil =>
    intro b acc hids hnd hclip hstack
    refine ⟨?_, ?_, ?_⟩
    · intro id hid
      rw [runAllocs, List.append_nil] at hid
      exact hids id hid
    · rw [runAllocs, List.append_nil]
      exact hnd
    · intro r hr
      rw [runRefs] at hr
      exact absurd hr (List.not_mem_nil r)
  | cons op ops ih =>
    intro b acc hids hnd hclip hstack
    have hcnt := applyOp_idCounter b op
    have hlen := allocsOp_length b op
    have hmemall := allocsOp_mem b op
    have hids' : ∀ id ∈ acc ++ allocsOp b op, ∃ p k, p ∈ idPrefixes ∧
        id = p ++ natToDec k ∧ 1 ≤ k ∧ k ≤ (applyOp b op).idCounter := by
      intro id hid
      rcases List.mem_append.mp hid with h | h
      · rcases hids id h with ⟨p, k, hp, hidk, hk1, hk2⟩
        exact ⟨p, k, hp, hidk, hk1, by rw [hcnt]; omega⟩
      · rcases hmemall id h with ⟨p, hp, hidk⟩
        have hpos : 0 < (allocsOp b op).length :=
          List.length_pos.mpr (List.ne_nil_of_mem h)
        exact ⟨p, b.idCounter + 1, hp, hidk, by omega, by rw [hcnt]; omega⟩
    have hnd' : (acc ++ allocsOp b op).Nodup := by
      rcases hcase : allocsOp b op with _ | ⟨id, rest⟩
      · rw [List.append_nil]
        exact hnd
      · have hrest : rest = [] := by
          have h2 : (id :: rest).length ≤ 1 := hcase ▸ hlen
          simp only [List.length_cons] at h2
          exact List.eq_nil_of_length_eq_zero (by omega)
        subst hrest
        refine List.Nodup.append hnd (List.nodup_singleton id) ?_
        intro x hx hx2
        rcases List.mem_singleton.mp hx2 with rfl
        rcases hids x hx with ⟨p, k, hp, hidk, hk1, hk2⟩
        rcases hmemall x (by rw [hcase]; exact List.mem_singleton.mpr rfl)
          with ⟨q, hq, hidq⟩
        exact prefixed_id_ne hp hq (by omega : k ≠ b.idCounter + 1)
          (hidk.symm.trans hidq)
    have hclipinv := applyOp_clip_inv b op acc hclip hstack
    rcases ih (applyOp b op) (acc ++ allocsOp b op) hids' hnd'
      hclipinv.1 hclipinv.2 with ⟨hA, hB, hC⟩
    refine ⟨?_, ?_, ?_⟩
    · intro id hid
      rw [runAllocs] at hid
      apply hA
      rw [List.append_assoc]
      exact hid
    · rw [runAllocs, ← List.append_assoc]
      exact hB
    · intro r hr
      rw [runRefs] at hr
      rw [runAllocs, ← List.append_assoc]
      rcases List.mem_append.mp hr with h | h
      · have hsub := refsOp_sub b op acc hclip r h
        exact List.mem_append_left _ hsub
      · exact hC r h

/-- C9: along any run from a freshly begun document, the definition ids
allocated by `nextID` are pairwise distinct (the counter is strictly
monotonic and ids are never reused), every `url(#id)` reference emitted —
clip-path references and gradient paint references — names exactly one
allocated definition id, and no operation ever decreases the counter. -/
theorem c9_reference_integrity (w h : ℤ) (ops : List Op) :
    (runAllocs (beginDoc w h newBackend) ops).Nodup ∧
    (∀ r ∈ runRefs (beginDoc w h newBackend) ops,
      (runAllocs (beginDoc w h newBackend) ops).count r = 1) ∧
    (∀ (b : Backend) (op : Op),
      b.idCounter ≤ (applyOp b op).idCounter) := by
  have hmain := run_id_integrity ops (beginDoc w h newBackend) []
    (by intro id hid; exact absurd hid (List.not_mem_nil id))
    List.nodup_nil (Or.inl rfl)
    (by intro st hst; exact absurd hst (List.not_mem_nil st))
  rcases hmain with ⟨_, hnd, hrefs⟩
  rw [List.nil_append] at hnd
  refine ⟨hnd, ?_, ?_⟩
  · intro r hr
    have := hrefs r hr
    rw [List.nil_append] at this
    exact List.count_eq_one_of_mem hnd this
  · intro b op
    rw [applyOp_idCounter]
    omega

/-- Witness for C9 at a concrete run: a clip definition followed by a
solid-filled rectangle that references it. -/
theorem c9_witness :
    (runAllocs (beginDoc 400 300 newBackend)
        [.setClip (some [PathElem.close]) .nonZero,
         .fillRect ⟨0, 0, 1, 1⟩ (.solid ⟨0, 0, 0, 1⟩)]).count "clip1" = 1 :=
  (c9_reference_integrity 400 300
      [.setClip (some [PathElem.close]) .nonZero,
       .fillRect ⟨0, 0, 1, 1⟩ (.solid ⟨0, 0, 0, 1⟩)]).2.1 "clip1"
    (by decide)


/-- Witness for C8 at a concrete repeat-mode gradient with a unit-length
vector. -/
theorem c8_witness :
    SubstrP "spreadMethod".data
      (linGradFragment ("lg" ++ natToDec 1)
        ⟨⟨0, 0⟩, ⟨1, 0⟩, [], Extend.repeatMode⟩).data :=
  (c8_spread_attr_iff (beginDoc 1 1 newBackend)
      ⟨⟨0, 0⟩, ⟨1, 0⟩, [], Extend.repeatMode⟩).2.mpr
    ⟨Or.inl rfl, by norm_num [lengthSq]⟩

end GGSvg
